import Mathlib

/-!
# Verification of the AI-response normalization layer

Shallow embedding of the response-normalization code of the repository
(`services/geminiService.ts`, `App.tsx`, `components/MetadataGenerator.tsx`).

JavaScript strings are modelled as `List Char`; `JSON.parse` is modelled as an
abstract function `p : List Char → Option Json` (`none` = the parse throws a
`SyntaxError`); JavaScript error objects are modelled by their message strings,
except where the code branches on the error's class, which is modelled by the
`JsError` type below.
-/

/-- A parsed JSON value, as produced by `JSON.parse`.  Object fields are kept
in insertion order; a duplicate key in the source is modelled by a later list
entry shadowing an earlier one (`lookupLast`), matching `JSON.parse` and
object-literal evaluation, where the last write to a key wins. -/
inductive Json where
  | null
  | bool (b : Bool)
  | num (n : Int)
  | str (s : String)
  | arr (elems : List Json)
  | obj (fields : List (String × Json))
deriving Repr

/-- JavaScript strict equality `===` restricted to the values this code
compares.  On primitives (`null`, booleans, numbers, strings) `===` is value
equality; on two objects or arrays it is reference identity, which a value
model cannot express, so those comparisons are mapped to `false`.  The only
`===` in the modelled code compares citation URIs, which are strings. -/
def jsPrimEq (a b : Json) : Bool :=
  match a, b with
  | .null, .null => true
  | .bool x, .bool y => decide (x = y)
  | .num x, .num y => decide (x = y)
  | .str x, .str y => decide (x = y)
  | _, _ => false

theorem jsPrimEq_symm (a b : Json) : jsPrimEq a b = jsPrimEq b a := by
  cases a <;> cases b <;> simp [jsPrimEq, eq_comm]

theorem jsPrimEq_str_self (s : String) : jsPrimEq (Json.str s) (Json.str s) = true := by
  simp [jsPrimEq]

/-- Last-wins lookup of a key in a JavaScript object's field list. -/
def lookupLast (l : List (String × Json)) (key : String) : Option Json :=
  match l with
  | [] => none
  | (k, v) :: rest =>
    match lookupLast rest key with
    | some r => some r
    | none => if k = key then some v else none

/-- `j.k` member access: `some` the field value for objects, else `none`
(JavaScript `undefined`; the code never reads named fields off non-objects). -/
def getField (j : Json) (key : String) : Option Json :=
  match j with
  | .obj l => lookupLast l key
  | _ => none

/-- JavaScript truthiness of a value. -/
def truthy (j : Json) : Bool :=
  match j with
  | .null => false
  | .bool b => b
  | .num n => decide (n ≠ 0)
  | .str s => decide (s ≠ "")
  | .arr _ => true
  | .obj _ => true

/-- Truthiness of a possibly-`undefined` value (`undefined` is falsy). -/
def truthyOpt (o : Option Json) : Bool :=
  match o with
  | none => false
  | some j => truthy j

theorem lookupLast_append_single (l : List (String × Json)) (k : String) (v : Json) :
    lookupLast (l ++ [(k, v)]) k = some v := by
  induction l with
  | nil => simp [lookupLast]
  | cons hd tl ih => simp [lookupLast, ih]

/-! ## Text utilities: trim and the fenced-code-block pattern

JavaScript strings are `List Char`.  The pattern used by `findEvents` and
`getGlobalHotTopics` is, in the source, a regular expression matching three
backticks, an optional literal tag, a newline, a lazily-matched
interior (capture group 2), a newline and three backticks; `String.match`
returns the leftmost match. -/

/-- `startsWith pat l`: `pat` is a prefix of `l`. -/
def startsWith : List Char → List Char → Bool
  | [], _ => true
  | _ :: _, [] => false
  | p :: ps, c :: cs => if p = c then startsWith ps cs else false

/-- The backtick character (U+0060). -/
def btick : Char := Char.ofNat 96

/-- Fence opener with the language tag: three backticks, the tag, a newline. -/
def openTagged : List Char := [btick, btick, btick, 'j', 's', 'o', 'n', '\n']

/-- Fence opener without a tag: three backticks and a newline. -/
def openPlain : List Char := [btick, btick, btick, '\n']

/-- Fence closer: a newline and three backticks. -/
def closeFence : List Char := ['\n', btick, btick, btick]

/-- Lazy scan for the interior of a matched fence: the characters up to the
first occurrence of `closeFence`, or `none` when the fence never closes. -/
def interiorOf : List Char → Option (List Char)
  | [] => none
  | c :: rest =>
    if startsWith closeFence (c :: rest) then some []
    else (interiorOf rest).map (c :: ·)

/-- Attempt to match the fence pattern at the head of the text.  The optional
tag group prefers to consume the tag; if after the three backticks
neither the tagged nor the bare opener matches, the position fails (matching
the regex backtracking behaviour). -/
def fenceMatchAt (l : List Char) : Option (List Char) :=
  if startsWith openTagged l then interiorOf (l.drop 8)
  else if startsWith openPlain l then interiorOf (l.drop 4)
  else none

/-- Leftmost match of the fence pattern: capture group 2 of
`rawText.match(...)` in the source, or `none` when the pattern is absent. -/
def extractFence : List Char → Option (List Char)
  | [] => none
  | c :: rest =>
    match fenceMatchAt (c :: rest) with
    | some i => some i
    | none => extractFence rest

/-- Whether `closeFence` occurs anywhere in the text (used as a side
condition: a fence body containing the closer would end the match early). -/
def hasCloseFence : List Char → Bool
  | [] => false
  | c :: rest => startsWith closeFence (c :: rest) || hasCloseFence rest

/-- JavaScript whitespace recognised by `String.prototype.trim` (restricted
to the ASCII whitespace that can actually occur around the payloads). -/
def isJsWS (c : Char) : Bool := c = ' ' || c = '\n' || c = '\t' || c = '\r'

/-- `text.trim()`. -/
def jsTrim (s : List Char) : List Char :=
  ((s.dropWhile isJsWS).reverse.dropWhile isJsWS).reverse

/-- Which string the normalizer hands to `JSON.parse`: the fenced interior
when the match succeeded with a non-empty group 2 (`if (jsonMatch &&
jsonMatch[2])`), otherwise the whole trimmed text. -/
inductive ParseTarget where
  | fenced (body : List Char)
  | bare (whole : List Char)
deriving Repr, DecidableEq

/-- The branch taken by `findEvents` / `getGlobalHotTopics` on the trimmed
response text. -/
def selectParse (rawText : List Char) : ParseTarget :=
  match extractFence rawText with
  | some i => if i = [] then .bare rawText else .fenced i
  | none => .bare rawText

/-- A JavaScript exception as observed by the `catch` blocks: either a
`SyntaxError` escaping `JSON.parse`, or an `Error` thrown by the code itself,
identified by its message. -/
inductive JsError where
  | syntaxError
  | appError (msg : String)
deriving Repr, DecidableEq

/-- The parse stage shared by `findEvents` and `getGlobalHotTopics`: pick the
parse target; a failed parse of a fenced interior lets the `SyntaxError`
escape, a failed parse of the bare text is caught by the inner
`try`/`catch`, which throws `Error(malformedMsg)`. -/
def parseStage (p : List Char → Option Json) (malformedMsg : String)
    (rawText : List Char) : Except JsError Json :=
  match selectParse rawText with
  | .fenced body =>
    match p body with
    | some d => .ok d
    | none => .error .syntaxError
  | .bare whole =>
    match p whole with
    | some d => .ok d
    | none => .error (.appError malformedMsg)

/-! ## Error messages of the service layer (verbatim from the source) -/

/-- Generic failure surfaced by `generateContentIdeas`' catch block. -/
def gciFailMsg : String := "Failed to generate AI content. Please check your API key and try again."

/-- Structure error thrown inside `generateContentIdeas`' try block. -/
def gciStructMsg : String := "Invalid response structure from AI."

/-- Generic failure surfaced by `generateTrendingIdeas`. -/
def trendFailMsg : String := "Failed to generate AI trend report. Please try another theme."

/-- Structure error thrown inside `generateTrendingIdeas`. -/
def trendStructMsg : String := "Invalid response structure from AI for trends."

/-- Generic failure surfaced by `generateKeywordStrategy`. -/
def kwFailMsg : String := "Failed to generate keyword strategy. Please try another topic."

/-- Structure error thrown inside `generateKeywordStrategy`. -/
def kwStructMsg : String := "Invalid response structure from AI for keyword strategy."

/-- Generic failure surfaced by `generateStockMetadata`. -/
def smFailMsg : String := "Failed to generate stock metadata. Please try another topic or image."

/-- Structure error thrown inside `generateStockMetadata`. -/
def smStructMsg : String := "Invalid response structure from AI for stock metadata."

/-- Malformed-response error of `getGlobalHotTopics` (bare-parse failure). -/
def htParseMsg : String := "The AI\x27s response for hot topics was not in the expected JSON format."

/-- Structure error thrown inside `getGlobalHotTopics`. -/
def htStructMsg : String := "Invalid response structure from AI for hot topics."

/-- Generic failure surfaced by `getGlobalHotTopics`' outer catch. -/
def htGenericMsg : String := "Failed to fetch global hot topics. The AI may be busy."

/-- Malformed-response error of `findEvents`. -/
def feParseMsg : String := "Failed to parse the AI\x27s response. It was not in the expected JSON format."

/-- Generic failure surfaced by `findEvents`' outer catch. -/
def feGenericMsg : String := "Failed to find events using AI. Please try again."

/-- Failure surfaced by `generateInspirationGallery`. -/
def galleryFailMsg : String := "Failed to generate the full inspiration gallery."

/-- `String.prototype.includes`, used by `getGlobalHotTopics`' outer catch. -/
def listContainsSub (pat : List Char) : List Char → Bool
  | [] => startsWith pat []
  | c :: rest => startsWith pat (c :: rest) || listContainsSub pat rest

/-- `s.includes(pat)` on JavaScript strings given as Lean `String`s. -/
def strIncludes (s pat : String) : Bool := listContainsSub pat.toList s.toList

/-! ## The structured-output generators

These endpoints request `responseMimeType: 'application/json'`, so they parse
`response.text.trim()` directly (no fence stripping) and then check required
fields by truthiness.  The whole body sits in one `try` whose `catch` replaces
any error — `SyntaxError` from `JSON.parse` or the structure `Error` thrown
by the code — with the operation's single generic failure message. -/

/-- The try-block of `generateContentIdeas` up to the structure check:
parse, then `if (!data.ideas || !data.uploadTip) throw ...`. -/
def generateContentIdeasNormalize (p : List Char → Option Json)
    (text : List Char) : Except JsError Json :=
  match p (jsTrim text) with
  | none => .error .syntaxError
  | some data =>
    if truthyOpt (getField data "ideas") && truthyOpt (getField data "uploadTip") then
      .ok data
    else .error (.appError gciStructMsg)

/-- `generateContentIdeas` as observed by its caller. -/
def generateContentIdeas (p : List Char → Option Json)
    (text : List Char) : Except String Json :=
  match generateContentIdeasNormalize p text with
  | .ok d => .ok d
  | .error _ => .error gciFailMsg

/-- The try-block of `generateTrendingIdeas`:
`if (!data.ideas || !data.audienceTip) throw ...`. -/
def generateTrendingIdeasNormalize (p : List Char → Option Json)
    (text : List Char) : Except JsError Json :=
  match p (jsTrim text) with
  | none => .error .syntaxError
  | some data =>
    if truthyOpt (getField data "ideas") && truthyOpt (getField data "audienceTip") then
      .ok data
    else .error (.appError trendStructMsg)

/-- `generateTrendingIdeas` as observed by its caller. -/
def generateTrendingIdeas (p : List Char → Option Json)
    (text : List Char) : Except String Json :=
  match generateTrendingIdeasNormalize p text with
  | .ok d => .ok d
  | .error _ => .error trendFailMsg

/-- The try-block of `generateKeywordStrategy`:
`if (!data.primaryKeywords || !data.longTailKeywords || !data.relatedConcepts)`. -/
def generateKeywordStrategyNormalize (p : List Char → Option Json)
    (text : List Char) : Except JsError Json :=
  match p (jsTrim text) with
  | none => .error .syntaxError
  | some data =>
    if truthyOpt (getField data "primaryKeywords") &&
        truthyOpt (getField data "longTailKeywords") &&
        truthyOpt (getField data "relatedConcepts") then
      .ok data
    else .error (.appError kwStructMsg)

/-- `generateKeywordStrategy` as observed by its caller. -/
def generateKeywordStrategy (p : List Char → Option Json)
    (text : List Char) : Except String Json :=
  match generateKeywordStrategyNormalize p text with
  | .ok d => .ok d
  | .error _ => .error kwFailMsg

/-- The try-block of `generateStockMetadata`: parse, then
`if (!data.metadata || !Array.isArray(data.metadata)) throw ...; return
data.metadata` — a missing, falsy, or non-array `metadata` is rejected, an
array passes through with its entries unvalidated. -/
def generateStockMetadataNormalize (p : List Char → Option Json)
    (text : List Char) : Except JsError (List Json) :=
  match p (jsTrim text) with
  | none => .error .syntaxError
  | some data =>
    match getField data "metadata" with
    | some (Json.arr l) => .ok l
    | _ => .error (.appError smStructMsg)

/-- `generateStockMetadata` as observed by its caller. -/
def generateStockMetadata (p : List Char → Option Json)
    (text : List Char) : Except String (List Json) :=
  match generateStockMetadataNormalize p text with
  | .ok l => .ok l
  | .error _ => .error smFailMsg

/-! ## `getGlobalHotTopics` and `findEvents`

Both use search grounding, so they strip an optional markdown fence before
parsing.  Their outer catch blocks differ: `getGlobalHotTopics` rethrows any
error whose message contains the substring JSON and replaces everything else
with its generic message; `findEvents` rethrows only a `SyntaxError` (as its
parse message) and replaces everything else — including the malformed-response
`Error` thrown by its own inner catch — with its generic message.

A `SyntaxError`'s own message text is engine-defined, so `getGlobalHotTopics`'
behaviour on a fenced-interior parse failure depends on whether that message
contains JSON; the model takes that bit and the message as parameters. -/

/-- `getGlobalHotTopics` as observed by its caller.  `synHasJSON`/`synMsg`
describe the engine's `SyntaxError` message (see module comment above). -/
def getGlobalHotTopics (p : List Char → Option Json) (synHasJSON : Bool)
    (synMsg : String) (text : List Char) : Except String (List Json) :=
  match parseStage p htParseMsg (jsTrim text) with
  | .error .syntaxError => if synHasJSON then .error synMsg else .error htGenericMsg
  | .error (.appError m) => if strIncludes m "JSON" then .error m else .error htGenericMsg
  | .ok data =>
    match data with
    | .arr l => .ok l
    | _ =>
      -- `if (!Array.isArray(data)) throw Error(htStructMsg)`, re-examined by
      -- the same outer catch
      if strIncludes htStructMsg "JSON" then .error htStructMsg else .error htGenericMsg

/-- Object-spread `{...event, country: countryCode}`: the spread contributes
the source's own enumerable entries (fields of an object; index keys for an
array or a string; nothing for other primitives), and the trailing literal
key wins, which the last-wins `lookupLast` models. -/
def spreadEntries (j : Json) : List (String × Json) :=
  match j with
  | .obj l => l
  | .arr l => ((List.range l.length).zip l).map (fun iv => (toString iv.1, iv.2))
  | .str s =>
    ((List.range s.toList.length).zip s.toList).map
      (fun ic => (toString ic.1, Json.str ic.2.toString))
  | _ => []

/-- `(event) => ({...event, country: countryCode})` from `findEvents`. -/
def spreadWithCountry (countryCode : String) (event : Json) : Json :=
  Json.obj (spreadEntries event ++ [("country", Json.str countryCode)])

/-- A grounding-source candidate `{uri: chunk.web.uri, title: chunk.web.title}`;
either component may be `undefined` (`none`). -/
structure RawSource where
  uri : Option Json
  title : Option Json
deriving Repr

/-- `chunk.web && {uri: chunk.web.uri, title: chunk.web.title}`: a falsy
`web` short-circuits to a falsy value (`none` here), which the following
truthiness filter discards. -/
def mapChunk (chunk : Json) : Option RawSource :=
  match getField chunk "web" with
  | some w => if truthy w then some ⟨getField w "uri", getField w "title"⟩ else none
  | none => none

/-- `source && source.uri && source.title` of the first filter. -/
def keepSource : Option RawSource → Bool
  | none => false
  | some s => truthyOpt s.uri && truthyOpt s.title

/-- `t.uri === value.uri` on candidate URIs (strict equality; `undefined ===
undefined` is true). -/
def uriEq (a b : Option Json) : Bool :=
  match a, b with
  | none, none => true
  | some x, some y => jsPrimEq x y
  | _, _ => false

/-- `self.filter((value, index, self) => index === self.findIndex(t => t.uri
=== value.uri))`: walk the array with its index, keeping an element exactly
when its index is the first index carrying its URI. -/
def dedupKeepAux (full : List RawSource) : Nat → List RawSource → List RawSource
  | _, [] => []
  | i, s :: rest =>
    if full.findIdx (fun t => uriEq t.uri s.uri) = i then
      s :: dedupKeepAux full (i + 1) rest
    else dedupKeepAux full (i + 1) rest

/-- The deduplication filter of `findEvents`. -/
def dedupByUri (l : List RawSource) : List RawSource := dedupKeepAux l 0 l

/-- The full grounding-source pipeline of `findEvents`: map chunks, drop the
falsy/incomplete candidates (one combined filter in the source), dedup. -/
def sourcesOf (chunks : List Json) : List RawSource :=
  dedupByUri (((chunks.map mapChunk).filter keepSource).filterMap id)

/-- `findEvents` as observed by its caller: `p` is `JSON.parse`, `text` the
response text, `chunks` the grounding chunks of the response metadata. -/
def findEvents (p : List Char → Option Json) (countryCode : String)
    (text : List Char) (chunks : List Json) :
    Except String (List Json × List RawSource) :=
  match parseStage p feParseMsg (jsTrim text) with
  | .error .syntaxError => .error feParseMsg
  | .error (.appError _) => .error feGenericMsg
  | .ok data =>
    -- `const events = (data.events || []).map(event => ({...event, country}))`
    let ev : Json :=
      match getField data "events" with
      | some j => if truthy j then j else Json.arr []
      | none => Json.arr []
    match ev with
    | .arr l => .ok (l.map (spreadWithCountry countryCode), sourcesOf chunks)
    | _ =>
      -- a truthy non-array has no `.map`: the TypeError reaches the outer
      -- catch, which is not a SyntaxError case
      .error feGenericMsg

/-! ## `generateInspirationGallery` and the App/Metadata view handlers -/

/-- `Promise.all`: all values, or the first rejection. -/
def promiseAll {ε α : Type} : List (Except ε α) → Except ε (List α)
  | [] => .ok []
  | x :: xs =>
    match x with
    | .error e => .error e
    | .ok v =>
      match promiseAll xs with
      | .ok l => .ok (v :: l)
      | .error e => .error e

/-- `generateInspirationGallery`: issue `Array(4).fill(null).map(() =>
generateInspirationalImage(query, contentType))` — four requests, modelled by
their outcomes `genImage 0 .. genImage 3` — and await them all; any rejection
makes the whole operation fail with the gallery message. -/
def generateInspirationGallery (genImage : Nat → Except String String) :
    Except String (List String) :=
  match promiseAll ((List.range 4).map genImage) with
  | .ok imgs => .ok imgs
  | .error _ => .error galleryFailMsg

/-- The session state of the events view (`App.tsx`). -/
structure AppState where
  events : List Json
  sources : List RawSource
  inspirationImages : List String
  searchQuery : String
  isSearchingEvents : Bool
  isGeneratingGallery : Bool
  hasSearched : Bool
  contentType : String
  error : Option String
  galleryError : Option String

/-- Lines handling the two settled results in `handleSearch`: each outcome is
examined on its own, in source order.  An `Except.error` carries the message
of the rejection reason (all rejections of the modelled services are `Error`s,
so the `instanceof Error` fallback message never applies to them). -/
def handleSearchSettled (st : AppState)
    (eventsResult : Except String (List Json × List RawSource))
    (galleryResult : Except String (List String)) : AppState :=
  let st1 :=
    match eventsResult with
    | .ok r => { st with events := r.1, sources := r.2 }
    | .error m => { st with error := some m }
  let st2 := { st1 with isSearchingEvents := false }
  let st3 :=
    match galleryResult with
    | .ok imgs => { st2 with inspirationImages := imgs }
    | .error m => { st2 with galleryError := some m }
  { st3 with isGeneratingGallery := false }

/-- The `handleSearch` callback: reset the view state, resolve the country and
month names (`none` models a failed `find`), and on success await both
requests via `Promise.allSettled` and fold in their outcomes. -/
def handleSearch (st : AppState) (countryName monthName : Option String)
    (ctype : String) (eventsResult : Except String (List Json × List RawSource))
    (galleryResult : Except String (List String)) : AppState :=
  let st0 :=
    { st with hasSearched := true, events := [], sources := [],
              inspirationImages := [], error := none, galleryError := none,
              contentType := ctype, isSearchingEvents := true,
              isGeneratingGallery := true }
  match countryName, monthName with
  | some cn, some mn =>
    handleSearchSettled { st0 with searchQuery := mn ++ " in " ++ cn }
      eventsResult galleryResult
  | _, _ =>
    { st0 with error := some "Invalid country or month selected.",
               isSearchingEvents := false, isGeneratingGallery := false }

/-- A selected file as read by `handleImageChange` (`size` in bytes). -/
structure FileRec where
  size : Nat
  mimeType : String

/-- The state touched by `handleImageChange` in `MetadataGenerator`. -/
structure MetaState where
  imageFile : Option FileRec
  imageBase64 : Option String
  error : Option String

/-- `handleImageChange`: no-op without a file; an oversized file only sets the
error and returns; otherwise attach the file, clear the error, and convert
(`fileToBase64`; a read failure resets both image fields and sets the read
error).  The returned `Bool` records whether a conversion was attempted. -/
def handleImageChange (st : MetaState) (file : Option FileRec)
    (fileToBase64 : FileRec → Except Unit String) : MetaState × Bool :=
  match file with
  | none => (st, false)
  | some f =>
    if f.size > 4 * 1024 * 1024 then
      ({ st with error := some "Image size must be less than 4MB." }, false)
    else
      let st1 := { st with imageFile := some f, error := none }
      match fileToBase64 f with
      | .ok b64 => ({ st1 with imageBase64 := some b64 }, true)
      | .error _ =>
        ({ st1 with error := some "Failed to read the image file.",
                    imageFile := none, imageBase64 := none }, true)

/-! ## Lemmas about the fence pattern -/

theorem startsWith_append_self (pat r : List Char) :
    startsWith pat (pat ++ r) = true := by
  induction pat with
  | nil => simp [startsWith]
  | cons p ps ih => simp [startsWith, ih]

theorem startsWith_cons_ne {p c : Char} (ps cs : List Char) (h : p ≠ c) :
    startsWith (p :: ps) (c :: cs) = false := by
  simp [startsWith, h]

theorem fenceMatchAt_not_btick {c : Char} (t : List Char) (h : c ≠ btick) :
    fenceMatchAt (c :: t) = none := by
  have hb : btick ≠ c := fun hh => h hh.symm
  simp [fenceMatchAt, openTagged, openPlain, startsWith_cons_ne _ _ hb]

theorem extractFence_skip (pre s : List Char) (h : ∀ c ∈ pre, c ≠ btick) :
    extractFence (pre ++ s) = extractFence s := by
  induction pre with
  | nil => rfl
  | cons a pre ih =>
    have ha : a ≠ btick := h a (List.mem_cons_self a pre)
    have hrest : ∀ c ∈ pre, c ≠ btick := fun c hc => h c (List.mem_cons_of_mem a hc)
    simp only [List.cons_append, extractFence, fenceMatchAt_not_btick _ ha]
    exact ih hrest

theorem startsWith_true_elim {p c : Char} {ps cs : List Char}
    (h : startsWith (p :: ps) (c :: cs) = true) :
    p = c ∧ startsWith ps cs = true := by
  by_cases hpc : p = c
  · refine ⟨hpc, ?_⟩
    simpa [startsWith, hpc] using h
  · simp [startsWith, hpc] at h

theorem startsWith_closeFence_boundary (l post : List Char) (hne : l ≠ [])
    (hl : startsWith closeFence l = false) :
    startsWith closeFence (l ++ (closeFence ++ post)) = false := by
  have hb : btick ≠ '\n' := by decide
  match l with
  | [] => exact absurd rfl hne
  | [a] =>
    cases hsw : startsWith closeFence ([a] ++ (closeFence ++ post)) with
    | false => rfl
    | true =>
      rw [show [a] ++ (closeFence ++ post) =
        a :: '\n' :: btick :: btick :: btick :: post from rfl] at hsw
      rw [show closeFence = '\n' :: btick :: btick :: btick :: ([] : List Char)
        from rfl] at hsw
      obtain ⟨-, hsw⟩ := startsWith_true_elim hsw
      obtain ⟨hcontra, -⟩ := startsWith_true_elim hsw
      exact absurd hcontra hb
  | [a, b] =>
    cases hsw : startsWith closeFence ([a, b] ++ (closeFence ++ post)) with
    | false => rfl
    | true =>
      rw [show [a, b] ++ (closeFence ++ post) =
        a :: b :: '\n' :: btick :: btick :: btick :: post from rfl] at hsw
      rw [show closeFence = '\n' :: btick :: btick :: btick :: ([] : List Char)
        from rfl] at hsw
      obtain ⟨-, hsw⟩ := startsWith_true_elim hsw
      obtain ⟨-, hsw⟩ := startsWith_true_elim hsw
      obtain ⟨hcontra, -⟩ := startsWith_true_elim hsw
      exact absurd hcontra hb
  | [a, b, c] =>
    cases hsw : startsWith closeFence ([a, b, c] ++ (closeFence ++ post)) with
    | false => rfl
    | true =>
      rw [show [a, b, c] ++ (closeFence ++ post) =
        a :: b :: c :: '\n' :: btick :: btick :: btick :: post from rfl] at hsw
      rw [show closeFence = '\n' :: btick :: btick :: btick :: ([] : List Char)
        from rfl] at hsw
      obtain ⟨-, hsw⟩ := startsWith_true_elim hsw
      obtain ⟨-, hsw⟩ := startsWith_true_elim hsw
      obtain ⟨-, hsw⟩ := startsWith_true_elim hsw
      obtain ⟨hcontra, -⟩ := startsWith_true_elim hsw
      exact absurd hcontra hb
  | a :: b :: c :: d :: t =>
    simp only [closeFence, startsWith, List.cons_append] at hl ⊢
    exact hl

theorem interiorOf_append (body post : List Char) (h : hasCloseFence body = false) :
    interiorOf (body ++ (closeFence ++ post)) = some body := by
  induction body with
  | nil =>
    have hsw : startsWith closeFence ('\n' :: btick :: btick :: btick :: post) = true :=
      startsWith_append_self closeFence post
    rw [show ([] : List Char) ++ (closeFence ++ post) =
      '\n' :: (btick :: btick :: btick :: post) from rfl]
    simp [interiorOf, hsw]
  | cons c rest ih =>
    simp only [hasCloseFence, Bool.or_eq_false_iff] at h
    have hstep : startsWith closeFence ((c :: rest) ++ (closeFence ++ post)) = false :=
      startsWith_closeFence_boundary (c :: rest) post (by simp) h.1
    rw [show (c :: rest) ++ (closeFence ++ post) =
      c :: (rest ++ (closeFence ++ post)) from rfl] at hstep ⊢
    simp [interiorOf, hstep, ih h.2]

theorem fenceMatchAt_openTagged (rest : List Char) :
    fenceMatchAt (openTagged ++ rest) = interiorOf rest := by
  have hdrop : (openTagged ++ rest).drop 8 = rest := rfl
  simp [fenceMatchAt, startsWith_append_self openTagged rest, hdrop]

theorem fenceMatchAt_openPlain (rest : List Char) :
    fenceMatchAt (openPlain ++ rest) = interiorOf rest := by
  have hj : ('j' : Char) ≠ '\n' := by decide
  have h1 : startsWith openTagged (openPlain ++ rest) = false := by
    rw [show openPlain ++ rest = btick :: btick :: btick :: '\n' :: rest from rfl]
    rw [show openTagged =
      btick :: btick :: btick :: 'j' :: 's' :: 'o' :: 'n' :: '\n' :: ([] : List Char)
      from rfl]
    simp [startsWith, hj]
  have hdrop : (openPlain ++ rest).drop 4 = rest := rfl
  simp [fenceMatchAt, h1, startsWith_append_self openPlain rest, hdrop]

theorem extractFence_at_tagged (body post : List Char)
    (hbody : hasCloseFence body = false) :
    extractFence (openTagged ++ (body ++ (closeFence ++ post))) = some body := by
  have hm : fenceMatchAt
      (btick :: btick :: btick :: 'j' :: 's' :: 'o' :: 'n' :: '\n' ::
        (body ++ (closeFence ++ post))) = some body := by
    have h := fenceMatchAt_openTagged (body ++ (closeFence ++ post))
    rw [interiorOf_append body post hbody] at h
    exact h
  show extractFence
    (btick :: btick :: btick :: 'j' :: 's' :: 'o' :: 'n' :: '\n' ::
      (body ++ (closeFence ++ post))) = some body
  simp only [extractFence, hm]

theorem extractFence_at_plain (body post : List Char)
    (hbody : hasCloseFence body = false) :
    extractFence (openPlain ++ (body ++ (closeFence ++ post))) = some body := by
  have hm : fenceMatchAt
      (btick :: btick :: btick :: '\n' :: (body ++ (closeFence ++ post))) = some body := by
    have h := fenceMatchAt_openPlain (body ++ (closeFence ++ post))
    rw [interiorOf_append body post hbody] at h
    exact h
  show extractFence
    (btick :: btick :: btick :: '\n' :: (body ++ (closeFence ++ post))) = some body
  simp only [extractFence, hm]

/-- Leftmost-match of the fence pattern on prose, fence opener (with either
tag), body, fence closer, trailing prose: exactly the body is captured, as
long as the prose before the fence has no backtick and the body does not
itself contain the closer. -/
theorem extractFence_full (pre tag body post : List Char)
    (hpre : ∀ c ∈ pre, c ≠ btick)
    (htag : tag = ['j', 's', 'o', 'n'] ∨ tag = [])
    (hbody : hasCloseFence body = false) :
    extractFence (pre ++ (btick :: btick :: btick ::
      (tag ++ ('\n' :: (body ++ ('\n' :: btick :: btick :: btick :: post)))))) =
      some body := by
  rw [extractFence_skip pre _ hpre]
  rcases htag with h | h <;> subst h
  · exact extractFence_at_tagged body post hbody
  · exact extractFence_at_plain body post hbody

/-! ## The deduplication sub-rule -/

/-- Spec-side formulation of the deduplication sub-rule: keep only the first
occurrence of each distinct URI, preserving relative order (`seen` carries the
URIs already emitted). -/
def firstByUri (seen : List (Option Json)) : List RawSource → List RawSource
  | [] => []
  | s :: rest =>
    if seen.any (fun k => uriEq k s.uri) then firstByUri seen rest
    else s :: firstByUri (s.uri :: seen) rest

theorem uriEq_trans {a b c : Option Json} (h1 : uriEq a b = true)
    (h2 : uriEq b c = true) : uriEq a c = true := by
  cases a <;> cases b <;> cases c <;> simp_all [uriEq]
  rename_i x y z
  cases x <;> cases y <;> cases z <;> simp_all [jsPrimEq]

theorem firstByUri_congr (l : List RawSource) (seen₁ seen₂ : List (Option Json))
    (h : ∀ u, seen₁.any (fun k => uriEq k u) = seen₂.any (fun k => uriEq k u)) :
    firstByUri seen₁ l = firstByUri seen₂ l := by
  induction l generalizing seen₁ seen₂ with
  | nil => rfl
  | cons s rest ih =>
    simp only [firstByUri, h s.uri]
    cases hc : seen₂.any (fun k => uriEq k s.uri) with
    | true => simp [ih seen₁ seen₂ h]
    | false =>
      have h' : ∀ u, (s.uri :: seen₁).any (fun k => uriEq k u) =
          (s.uri :: seen₂).any (fun k => uriEq k u) := by
        intro u
        simp [List.any_cons, h u]
      simp [ih (s.uri :: seen₁) (s.uri :: seen₂) h']

theorem firstByUri_cons_seen (l : List RawSource) (k : Option Json)
    (seen : List (Option Json)) :
    firstByUri (k :: seen) l =
      (firstByUri seen l).filter (fun s => !(uriEq k s.uri)) := by
  induction l generalizing seen with
  | nil => rfl
  | cons s rest ih =>
    simp only [firstByUri, List.any_cons]
    by_cases hk : uriEq k s.uri = true
    · simp only [hk, Bool.true_or, if_true]
      by_cases hseen : seen.any (fun kk => uriEq kk s.uri) = true
      · simp only [hseen, if_true]
        exact ih seen
      · rw [Bool.not_eq_true] at hseen
        simp only [hseen, Bool.false_eq_true, if_false]
        rw [List.filter_cons_of_neg (by simp [hk])]
        rw [← ih (s.uri :: seen)]
        apply firstByUri_congr
        intro u
        simp only [List.any_cons]
        by_cases hsu : uriEq s.uri u = true
        · simp [uriEq_trans hk hsu, hsu]
        · rw [Bool.not_eq_true] at hsu
          simp [hsu]
    · rw [Bool.not_eq_true] at hk
      simp only [hk, Bool.false_or]
      by_cases hseen : seen.any (fun kk => uriEq kk s.uri) = true
      · simp only [hseen, if_true]
        exact ih seen
      · rw [Bool.not_eq_true] at hseen
        simp only [hseen, Bool.false_eq_true, if_false]
        rw [List.filter_cons_of_pos (by simp [hk])]
        have hswap : firstByUri (s.uri :: k :: seen) rest =
            firstByUri (k :: s.uri :: seen) rest := by
          apply firstByUri_congr
          intro u
          simp [List.any_cons, Bool.or_left_comm]
        rw [hswap, ih (s.uri :: seen)]

theorem dedupKeepAux_cons (x : RawSource) (xs l : List RawSource) (i : Nat) :
    dedupKeepAux (x :: xs) (i + 1) l =
      (dedupKeepAux xs i l).filter (fun s => !(uriEq x.uri s.uri)) := by
  induction l generalizing i with
  | nil => rfl
  | cons s rest ih =>
    simp only [dedupKeepAux, List.findIdx_cons]
    by_cases hx : uriEq x.uri s.uri = true
    · simp only [hx, cond_true]
      rw [if_neg (by omega)]
      rw [ih (i + 1)]
      by_cases hfi : xs.findIdx (fun t => uriEq t.uri s.uri) = i
      · rw [if_pos hfi, List.filter_cons_of_neg (by simp [hx])]
      · rw [if_neg hfi]
    · rw [Bool.not_eq_true] at hx
      simp only [hx, cond_false]
      by_cases hfi : xs.findIdx (fun t => uriEq t.uri s.uri) = i
      · rw [if_pos (by omega), if_pos hfi,
          List.filter_cons_of_pos (by simp [hx]), ih (i + 1)]
      · rw [if_neg (by omega), if_neg hfi, ih (i + 1)]

/-- The `findIndex`-based filter of the source equals the spec-side
first-occurrence fold, for candidate lists whose URIs are reflexive under
strict equality (all primitive URIs are; object URIs compare by reference,
outside this value model). -/
theorem dedupByUri_eq_firstByUri (l : List RawSource)
    (hrefl : ∀ s ∈ l, uriEq s.uri s.uri = true) :
    dedupByUri l = firstByUri [] l := by
  induction l with
  | nil => rfl
  | cons x xs ih =>
    have hx : uriEq x.uri x.uri = true := hrefl x (List.mem_cons_self x xs)
    have hxs : ∀ s ∈ xs, uriEq s.uri s.uri = true :=
      fun s hs => hrefl s (List.mem_cons_of_mem x hs)
    show dedupKeepAux (x :: xs) 0 (x :: xs) = firstByUri [] (x :: xs)
    simp only [dedupKeepAux, List.findIdx_cons, hx, cond_true, if_pos]
    rw [dedupKeepAux_cons x xs xs 0]
    show x :: (dedupByUri xs).filter (fun s => !(uriEq x.uri s.uri)) = _
    rw [ih hxs]
    simp only [firstByUri, List.any_nil, Bool.false_eq_true, if_false]
    rw [firstByUri_cons_seen]

/-! ## Supporting lemmas for the claims -/

theorem getField_spreadWithCountry (cc : String) (ev : Json) :
    getField (spreadWithCountry cc ev) "country" = some (Json.str cc) := by
  simp only [spreadWithCountry, getField]
  exact lookupLast_append_single _ _ _

theorem findEvents_ok_shape (p : List Char → Option Json) (cc : String)
    (text : List Char) (chunks : List Json) (evs : List Json)
    (srcs : List RawSource) (h : findEvents p cc text chunks = .ok (evs, srcs)) :
    ∃ l : List Json, evs = l.map (spreadWithCountry cc) ∧ srcs = sourcesOf chunks := by
  unfold findEvents at h
  cases hps : parseStage p feParseMsg (jsTrim text) with
  | error err =>
    rw [hps] at h
    cases err <;> simp at h
  | ok data =>
    rw [hps] at h
    simp only at h
    cases hev : getField data "events" with
    | none =>
      simp only [hev, List.map_nil, Except.ok.injEq, Prod.mk.injEq] at h
      refine ⟨[], ?_, h.2.symm⟩
      rw [List.map_nil]
      exact h.1.symm
    | some j =>
      simp only [hev] at h
      by_cases hj : truthy j = true
      · simp only [hj, if_true] at h
        cases j with
        | arr l =>
          simp only [Except.ok.injEq, Prod.mk.injEq] at h
          exact ⟨l, h.1.symm, h.2.symm⟩
        | null => simp at h
        | bool b => simp at h
        | num n => simp at h
        | str s => simp at h
        | obj fl => simp at h
      · rw [Bool.not_eq_true] at hj
        simp only [hj, Bool.false_eq_true, if_false, List.map_nil,
          Except.ok.injEq, Prod.mk.injEq] at h
        exact ⟨[], by simpa using ⟨h.1.symm, h.2.symm⟩⟩

/-- C9: on any successful `findEvents`, every returned event's `country`
field is the caller's `countryCode`, whatever the AI payload contained. -/
theorem findEvents_sets_country (p : List Char → Option Json) (countryCode : String)
    (text : List Char) (chunks : List Json) (evs : List Json)
    (srcs : List RawSource)
    (h : findEvents p countryCode text chunks = .ok (evs, srcs)) :
    ∀ e ∈ evs, getField e "country" = some (Json.str countryCode) := by
  obtain ⟨l, hl, -⟩ := findEvents_ok_shape p countryCode text chunks evs srcs h
  subst hl
  intro e he
  obtain ⟨x, -, hx⟩ := List.mem_map.mp he
  rw [← hx]
  exact getField_spreadWithCountry countryCode x

/-- Concrete payload for the C9 witness: one event carrying the wrong
country, which `findEvents` overwrites with the caller's code. -/
def c9Parse : List Char → Option Json := fun _ =>
  some (Json.obj [("events",
    Json.arr [Json.obj [("name", Json.str "Eid"), ("country", Json.str "XX")]])])

/-- Witness for C9 at a concrete payload. -/
theorem findEvents_sets_country_witness :
    findEvents c9Parse "PK" ("x".toList) [] =
      Except.ok ([Json.obj [("name", Json.str "Eid"), ("country", Json.str "XX"),
        ("country", Json.str "PK")]], []) ∧
    ∀ e ∈ [Json.obj [("name", Json.str "Eid"), ("country", Json.str "XX"),
        ("country", Json.str "PK")]],
      getField e "country" = some (Json.str "PK") :=
  ⟨rfl, findEvents_sets_country c9Parse "PK" ("x".toList) []
    [Json.obj [("name", Json.str "Eid"), ("country", Json.str "XX"),
      ("country", Json.str "PK")]] [] rfl⟩

/-- C10: selecting a file larger than 4 * 1024 * 1024 bytes only sets the
size error message; `imageFile` and `imageBase64` are untouched (the record
update keeps every other field) and no base64 conversion is attempted
(second component `false`). -/
theorem handleImageChange_oversized (st : MetaState) (f : FileRec)
    (conv : FileRec → Except Unit String) (h : f.size > 4 * 1024 * 1024) :
    handleImageChange st (some f) conv =
      ({ st with error := some "Image size must be less than 4MB." }, false) := by
  simp [handleImageChange, h]

/-- Witness for C10: a 4 MiB + 1 byte file on a state that already holds an
image; the image fields survive and no conversion runs. -/
theorem handleImageChange_oversized_witness :
    handleImageChange
        ⟨some ⟨100, "image/png"⟩, some "OLD", none⟩
        (some ⟨4 * 1024 * 1024 + 1, "image/jpeg"⟩) (fun _ => .ok "NEW") =
      (⟨some ⟨100, "image/png"⟩, some "OLD",
        some "Image size must be less than 4MB."⟩, false) :=
  handleImageChange_oversized ⟨some ⟨100, "image/png"⟩, some "OLD", none⟩
    ⟨4 * 1024 * 1024 + 1, "image/jpeg"⟩ (fun _ => .ok "NEW") (by norm_num)

/-- C7: the two settled outcomes in `handleSearch` are folded into the state
independently: for each of the four outcome combinations the final state
holds exactly the contributions of both requests — in particular a failed
events call together with a successful gallery call leaves both the gallery
images and the events error message in the state, and vice versa. -/
theorem handleSearch_independent_outcomes (st : AppState) (cn mn ct : String) :
    (∀ em imgs, handleSearch st (some cn) (some mn) ct (.error em) (.ok imgs) =
      { st with hasSearched := true, events := [], sources := [],
                inspirationImages := imgs, error := some em, galleryError := none,
                contentType := ct, searchQuery := mn ++ " in " ++ cn,
                isSearchingEvents := false, isGeneratingGallery := false }) ∧
    (∀ evs srcs gm, handleSearch st (some cn) (some mn) ct (.ok (evs, srcs)) (.error gm) =
      { st with hasSearched := true, events := evs, sources := srcs,
                inspirationImages := [], error := none, galleryError := some gm,
                contentType := ct, searchQuery := mn ++ " in " ++ cn,
                isSearchingEvents := false, isGeneratingGallery := false }) ∧
    (∀ evs srcs imgs, handleSearch st (some cn) (some mn) ct (.ok (evs, srcs)) (.ok imgs) =
      { st with hasSearched := true, events := evs, sources := srcs,
                inspirationImages := imgs, error := none, galleryError := none,
                contentType := ct, searchQuery := mn ++ " in " ++ cn,
                isSearchingEvents := false, isGeneratingGallery := false }) ∧
    (∀ em gm, handleSearch st (some cn) (some mn) ct (.error em) (.error gm) =
      { st with hasSearched := true, events := [], sources := [],
                inspirationImages := [], error := some em, galleryError := some gm,
                contentType := ct, searchQuery := mn ++ " in " ++ cn,
                isSearchingEvents := false, isGeneratingGallery := false }) := by
  refine ⟨fun em imgs => ?_, fun evs srcs gm => ?_, fun evs srcs imgs => ?_,
    fun em gm => ?_⟩ <;> rfl

theorem promiseAll_error_of_mem {ε α : Type} (l : List (Except ε α)) (e : ε)
    (h : Except.error e ∈ l) : ∃ e', promiseAll l = Except.error e' := by
  induction l with
  | nil => simp at h
  | cons x xs ih =>
    rcases List.mem_cons.mp h with hx | hx
    · exact ⟨e, by simp [promiseAll, ← hx]⟩
    · obtain ⟨e', he'⟩ := ih hx
      cases x with
      | error ex => exact ⟨ex, by simp [promiseAll]⟩
      | ok v => exact ⟨e', by simp [promiseAll, he']⟩

/-- C6: `generateInspirationGallery` issues exactly 4 requests; if any of
them fails the whole operation fails with the gallery error (no partial
result), and it returns the image list exactly when all four succeeded. -/
theorem generateInspirationGallery_allOrNothing (genImage : Nat → Except String String) :
    ((List.range 4).map genImage).length = 4 ∧
    (∀ i e, i < 4 → genImage i = .error e →
      generateInspirationGallery genImage = .error galleryFailMsg) ∧
    (∀ f : Nat → String, (∀ i, i < 4 → genImage i = .ok (f i)) →
      generateInspirationGallery genImage = .ok [f 0, f 1, f 2, f 3]) := by
  refine ⟨by simp, fun i e hi he => ?_, fun f hf => ?_⟩
  · have hmem : Except.error e ∈ (List.range 4).map genImage := by
      refine List.mem_map.mpr ⟨i, ?_, he⟩
      exact List.mem_range.mpr hi
    obtain ⟨e', he'⟩ := promiseAll_error_of_mem _ e hmem
    simp [generateInspirationGallery, he']
  · have h0 := hf 0 (by omega)
    have h1 := hf 1 (by omega)
    have h2 := hf 2 (by omega)
    have h3 := hf 3 (by omega)
    have hr : (List.range 4).map genImage =
        [Except.ok (f 0), Except.ok (f 1), Except.ok (f 2), Except.ok (f 3)] := by
      rw [show List.range 4 = [0, 1, 2, 3] from rfl]
      simp [h0, h1, h2, h3]
    simp [generateInspirationGallery, promiseAll, h0, h1, h2, h3]

/-- Witness for C6: the third of four requests fails, so the gallery fails
with the gallery message although the other three images succeeded. -/
theorem generateInspirationGallery_witness :
    generateInspirationGallery
        (fun i => if i = 2 then .error "model unavailable" else .ok "img") =
      Except.error galleryFailMsg ∧
    generateInspirationGallery (fun _ => .ok "img") =
      Except.ok ["img", "img", "img", "img"] :=
  ⟨(generateInspirationGallery_allOrNothing
      (fun i => if i = 2 then .error "model unavailable" else .ok "img")).2.1
      2 "model unavailable" (by omega) (by simp),
   (generateInspirationGallery_allOrNothing (fun _ => .ok "img")).2.2
      (fun _ => "img") (fun i _ => rfl)⟩

/-- Counterexample to C1: a payload that parses to `{}` — no `"events"`
field — makes `findEvents` succeed with an empty events list
(`data.events || []`) instead of failing with an invalid-structure error. -/
theorem findEvents_defaults_missing_events :
    findEvents (fun _ => some (Json.obj [])) "US" ("x".toList) [] =
      Except.ok ([], []) := rfl

/-- C1 (amended): the four structured-output generators do reject a parsed
payload whose required top-level field is missing — the normalize stage
raises the invalid-structure error and the operation fails with its generic
message, never substituting a default — but `findEvents` is the exception:
a missing `"events"` field is silently defaulted to an empty list and the
call succeeds. -/
theorem missing_required_field_behaviour
    (p : List Char → Option Json) (text : List Char) (data : Json)
    (cc : String) (chunks : List Json)
    (hp : p (jsTrim text) = some data) :
    ((getField data "ideas" = none ∨ getField data "uploadTip" = none) →
      generateContentIdeasNormalize p text = .error (.appError gciStructMsg) ∧
      generateContentIdeas p text = .error gciFailMsg) ∧
    ((getField data "ideas" = none ∨ getField data "audienceTip" = none) →
      generateTrendingIdeasNormalize p text = .error (.appError trendStructMsg) ∧
      generateTrendingIdeas p text = .error trendFailMsg) ∧
    ((getField data "primaryKeywords" = none ∨ getField data "longTailKeywords" = none ∨
        getField data "relatedConcepts" = none) →
      generateKeywordStrategyNormalize p text = .error (.appError kwStructMsg) ∧
      generateKeywordStrategy p text = .error kwFailMsg) ∧
    (getField data "metadata" = none →
      generateStockMetadataNormalize p text = .error (.appError smStructMsg) ∧
      generateStockMetadata p text = .error smFailMsg) ∧
    (extractFence (jsTrim text) = none → getField data "events" = none →
      findEvents p cc text chunks = .ok ([], sourcesOf chunks)) := by
  refine ⟨fun hmiss => ?_, fun hmiss => ?_, fun hmiss => ?_, fun hmiss => ?_,
    fun hnf hmiss => ?_⟩
  · have hn : generateContentIdeasNormalize p text = .error (.appError gciStructMsg) := by
      rcases hmiss with hm | hm <;>
        simp [generateContentIdeasNormalize, hp, hm, truthyOpt]
    exact ⟨hn, by simp [generateContentIdeas, hn]⟩
  · have hn : generateTrendingIdeasNormalize p text = .error (.appError trendStructMsg) := by
      rcases hmiss with hm | hm <;>
        simp [generateTrendingIdeasNormalize, hp, hm, truthyOpt]
    exact ⟨hn, by simp [generateTrendingIdeas, hn]⟩
  · have hn : generateKeywordStrategyNormalize p text = .error (.appError kwStructMsg) := by
      rcases hmiss with hm | hm | hm <;>
        simp [generateKeywordStrategyNormalize, hp, hm, truthyOpt]
    exact ⟨hn, by simp [generateKeywordStrategy, hn]⟩
  · have hn : generateStockMetadataNormalize p text = .error (.appError smStructMsg) := by
      simp [generateStockMetadataNormalize, hp, hmiss]
    exact ⟨hn, by simp [generateStockMetadata, hn]⟩
  · have hsel : selectParse (jsTrim text) = ParseTarget.bare (jsTrim text) := by
      simp [selectParse, hnf]
    have hps : parseStage p feParseMsg (jsTrim text) = .ok data := by
      simp [parseStage, hsel, hp]
    simp [findEvents, hps, hmiss]

/-- Witness for C1 (amended) at the payload `{}`: all four generators fail
and `findEvents` succeeds with the defaulted empty list. -/
theorem missing_required_field_behaviour_witness :
    generateContentIdeas (fun _ => some (Json.obj [])) ("x".toList) =
      .error gciFailMsg ∧
    generateTrendingIdeas (fun _ => some (Json.obj [])) ("x".toList) =
      .error trendFailMsg ∧
    generateKeywordStrategy (fun _ => some (Json.obj [])) ("x".toList) =
      .error kwFailMsg ∧
    generateStockMetadata (fun _ => some (Json.obj [])) ("x".toList) =
      .error smFailMsg ∧
    findEvents (fun _ => some (Json.obj [])) "US" ("x".toList) [] =
      .ok ([], sourcesOf []) := by
  have h := missing_required_field_behaviour (fun _ => some (Json.obj []))
    ("x".toList) (Json.obj []) "US" [] rfl
  exact ⟨(h.1 (Or.inl rfl)).2, (h.2.1 (Or.inl rfl)).2,
    (h.2.2.1 (Or.inl rfl)).2, (h.2.2.2.1 rfl).2, h.2.2.2.2 rfl rfl⟩

/-- Counterexample to C5: in `generateContentIdeas` a payload that fails to
parse and a payload that parses but lacks the required fields surface to the
caller as the very same error value (the one generic message), so the two
failure modes are not distinguishable there. -/
theorem generateContentIdeas_errors_collide :
    generateContentIdeas (fun _ => none) ("x".toList) = .error gciFailMsg ∧
    generateContentIdeas (fun _ => some (Json.obj [])) ("x".toList) =
      .error gciFailMsg := ⟨rfl, rfl⟩

theorem htParseMsg_hasJSON : strIncludes htParseMsg "JSON" = true := by decide

theorem htStructMsg_noJSON : strIncludes htStructMsg "JSON" = false := by decide

/-- C5 (amended): the two failure modes are distinct `JsError` values inside
the try-blocks (`SyntaxError` vs the invalid-structure `Error`), and
`getGlobalHotTopics` surfaces them as two distinct messages; but the
structured generators' catch blocks collapse both onto one generic message
(counterexample above), so the claim's "every normalizing operation" fails. -/
theorem error_modes_distinguishable_amended
    (p : List Char → Option Json) (text : List Char) (data : Json)
    (synJ : Bool) (synM : String) :
    (p (jsTrim text) = none →
      generateContentIdeasNormalize p text = .error .syntaxError) ∧
    (p (jsTrim text) = some data → getField data "ideas" = none →
      generateContentIdeasNormalize p text = .error (.appError gciStructMsg)) ∧
    (JsError.syntaxError ≠ JsError.appError gciStructMsg) ∧
    (extractFence (jsTrim text) = none → p (jsTrim text) = none →
      getGlobalHotTopics p synJ synM text = .error htParseMsg) ∧
    (extractFence (jsTrim text) = none → p (jsTrim text) = some data →
      (∀ l, data ≠ Json.arr l) →
      getGlobalHotTopics p synJ synM text = .error htGenericMsg) ∧
    (htParseMsg ≠ htGenericMsg) := by
  refine ⟨fun hp => ?_, fun hp hm => ?_, by simp, fun hnf hp => ?_,
    fun hnf hp hna => ?_, by decide⟩
  · simp [generateContentIdeasNormalize, hp]
  · simp [generateContentIdeasNormalize, hp, hm, truthyOpt]
  · have hsel : selectParse (jsTrim text) = ParseTarget.bare (jsTrim text) := by
      simp [selectParse, hnf]
    have hps : parseStage p htParseMsg (jsTrim text) = .error (.appError htParseMsg) := by
      simp [parseStage, hsel, hp]
    simp [getGlobalHotTopics, hps, htParseMsg_hasJSON]
  · have hsel : selectParse (jsTrim text) = ParseTarget.bare (jsTrim text) := by
      simp [selectParse, hnf]
    have hps : parseStage p htParseMsg (jsTrim text) = .ok data := by
      simp [parseStage, hsel, hp]
    cases data with
    | arr l => exact absurd rfl (hna l)
    | null => simp [getGlobalHotTopics, hps, htStructMsg_noJSON]
    | bool b => simp [getGlobalHotTopics, hps, htStructMsg_noJSON]
    | num n => simp [getGlobalHotTopics, hps, htStructMsg_noJSON]
    | str s => simp [getGlobalHotTopics, hps, htStructMsg_noJSON]
    | obj fl => simp [getGlobalHotTopics, hps, htStructMsg_noJSON]

/-- Witness for C5 (amended): both failure modes at concrete inputs. -/
theorem error_modes_distinguishable_amended_witness :
    generateContentIdeasNormalize (fun _ => none) ("x".toList) =
      .error .syntaxError ∧
    generateContentIdeasNormalize (fun _ => some (Json.obj [])) ("x".toList) =
      .error (.appError gciStructMsg) ∧
    getGlobalHotTopics (fun _ => none) false "m" ("x".toList) =
      .error htParseMsg ∧
    getGlobalHotTopics (fun _ => some (Json.obj [])) false "m" ("x".toList) =
      .error htGenericMsg := by
  refine ⟨?_, ?_, ?_, ?_⟩
  · exact (error_modes_distinguishable_amended (fun _ => none) ("x".toList)
      Json.null false "m").1 rfl
  · exact (error_modes_distinguishable_amended (fun _ => some (Json.obj []))
      ("x".toList) (Json.obj []) false "m").2.1 rfl rfl
  · exact (error_modes_distinguishable_amended (fun _ => none) ("x".toList)
      Json.null false "m").2.2.2.1 rfl rfl
  · exact (error_modes_distinguishable_amended (fun _ => some (Json.obj []))
      ("x".toList) (Json.obj []) false "m").2.2.2.2.1 rfl rfl
      (fun l h => by cases h)

/-- A stock-metadata entry with a single keyword, for the C8 counterexample. -/
def c8Entry : Json :=
  Json.obj [("platform", Json.str "Adobe Stock"), ("title", Json.str "T"),
    ("keywords", Json.arr [Json.str "sunset"])]

/-- Counterexample to C8: `generateStockMetadata` succeeds on a payload whose
entry has a 1-element keyword list — the 30–50-keyword range is only asked of
the model in the prompt/schema description, never validated. -/
theorem generateStockMetadata_accepts_one_keyword :
    generateStockMetadata (fun _ => some (Json.obj [("metadata", Json.arr [c8Entry])]))
        ("x".toList) = Except.ok [c8Entry] ∧
    getField c8Entry "keywords" = some (Json.arr [Json.str "sunset"]) ∧
    ¬(30 ≤ [Json.str "sunset"].length) := by
  refine ⟨rfl, rfl, by simp⟩

/-- C8 (amended): a successful `generateStockMetadata` returns exactly the
`"metadata"` array of the parsed payload; only presence-and-array-ness of
that field is checked, entries (platform, title, keyword counts) pass through
unvalidated. -/
theorem generateStockMetadata_passthrough (p : List Char → Option Json)
    (text : List Char) (l : List Json)
    (h : generateStockMetadata p text = .ok l) :
    ∃ data, p (jsTrim text) = some data ∧
      getField data "metadata" = some (Json.arr l) := by
  unfold generateStockMetadata generateStockMetadataNormalize at h
  cases hp : p (jsTrim text) with
  | none => simp only [hp] at h; simp at h
  | some data =>
    simp only [hp] at h
    refine ⟨data, rfl, ?_⟩
    cases hm : getField data "metadata" with
    | none => simp only [hm] at h; simp at h
    | some j =>
      simp only [hm] at h
      cases j with
      | arr l' =>
        simp only [Except.ok.injEq] at h
        rw [h]
      | null => simp at h
      | bool b => simp at h
      | num n => simp at h
      | str s => simp at h
      | obj fl => simp at h

/-- Witness for C8 (amended) at the one-keyword payload. -/
theorem generateStockMetadata_passthrough_witness :
    ∃ data,
      (fun (_ : List Char) => some (Json.obj [("metadata", Json.arr [c8Entry])]))
        (jsTrim ("x".toList)) = some data ∧
      getField data "metadata" = some (Json.arr [c8Entry]) :=
  generateStockMetadata_passthrough
    (fun _ => some (Json.obj [("metadata", Json.arr [c8Entry])]))
    ("x".toList) [c8Entry] rfl

/-- A grounding chunk `{web: {uri, title}}` built from a pair of strings. -/
def mkChunkPair (q : String × String) : Json :=
  Json.obj [("web", Json.obj [("uri", Json.str q.1), ("title", Json.str q.2)])]

theorem c2_pipeline (l : List (String × String)) :
    (((l.map mkChunkPair).map mapChunk).filter keepSource).filterMap id =
      (l.filter (fun q => decide (q.1 ≠ "") && decide (q.2 ≠ ""))).map
        (fun q => (⟨some (Json.str q.1), some (Json.str q.2)⟩ : RawSource)) := by
  induction l with
  | nil => rfl
  | cons q rest ih =>
    have hmc : mapChunk (mkChunkPair q) =
        some ⟨some (Json.str q.1), some (Json.str q.2)⟩ := rfl
    by_cases h1 : q.1 = "" <;> by_cases h2 : q.2 = "" <;>
      simpa [hmc, List.filter_cons, List.filterMap_cons, List.map_map,
        keepSource, truthyOpt, truthy, h1, h2, Function.comp] using ih

/-- C2: the grounding-source pipeline of `findEvents` first keeps only the
candidates whose URI and title are both non-empty, then keeps the first
occurrence of each distinct URI in order (refinement to the spec-side
`firstByUri`); on the spec's example list it yields exactly the first
`a`-entry and the `b`-entry. -/
theorem groundingSources_dedup :
    (∀ l : List (String × String),
      sourcesOf (l.map mkChunkPair) =
        firstByUri [] ((l.filter (fun q => decide (q.1 ≠ "") && decide (q.2 ≠ ""))).map
          (fun q => (⟨some (Json.str q.1), some (Json.str q.2)⟩ : RawSource)))) ∧
    sourcesOf [mkChunkPair ("a", "T1"), mkChunkPair ("a", "T2"),
        mkChunkPair ("b", "T3"), mkChunkPair ("", "T4")] =
      [⟨some (Json.str "a"), some (Json.str "T1")⟩,
       ⟨some (Json.str "b"), some (Json.str "T3")⟩] := by
  constructor
  · intro l
    unfold sourcesOf
    rw [c2_pipeline]
    apply dedupByUri_eq_firstByUri
    intro s hs
    obtain ⟨q, -, hq⟩ := List.mem_map.mp hs
    rw [← hq]
    simp [uriEq, jsPrimEq]
  · rfl

/-- Prose followed by a fence whose interior is empty. -/
def emptyFenceText : List Char := "note\n```json\n\n```".toList

/-- Counterexample to C3: this input contains a fenced block (the pattern
matches, capture group 2 is the empty interior), yet the guard
`if (jsonMatch && jsonMatch[2])` treats the empty group as falsy, so the
normalizer parses the whole trimmed string — prose included — instead of the
fenced interior. -/
theorem emptyFence_parses_whole_string :
    extractFence emptyFenceText = some [] ∧
    jsTrim emptyFenceText = emptyFenceText ∧
    selectParse emptyFenceText = ParseTarget.bare emptyFenceText ∧
    parseStage (fun s => if s = emptyFenceText then some (Json.str "WHOLE") else none)
      "m" (jsTrim emptyFenceText) = Except.ok (Json.str "WHOLE") ∧
    emptyFenceText ≠ [] := by
  refine ⟨rfl, rfl, rfl, rfl, by decide⟩

/-- C3 (amended): for an input whose trimmed text is prose (without
backticks), a fence with a non-empty interior, and trailing prose, the
normalizer used by `findEvents` and `getGlobalHotTopics` selects and parses
exactly the fenced interior; a fence with an empty interior instead falls
back to parsing the entire trimmed string (counterexample above). -/
theorem fenced_nonempty_interior_parsed
    (p : List Char → Option Json) (m : String)
    (text pre tag body post : List Char)
    (htrim : jsTrim text = pre ++ (btick :: btick :: btick ::
      (tag ++ ('\n' :: (body ++ ('\n' :: btick :: btick :: btick :: post))))))
    (hpre : ∀ c ∈ pre, c ≠ btick)
    (htag : tag = ['j', 's', 'o', 'n'] ∨ tag = [])
    (hbody : hasCloseFence body = false)
    (hne : body ≠ []) :
    selectParse (jsTrim text) = ParseTarget.fenced body ∧
    parseStage p m (jsTrim text) =
      (match p body with
       | some d => Except.ok d
       | none => Except.error JsError.syntaxError) := by
  have hext : extractFence (jsTrim text) = some body := by
    rw [htrim]
    exact extractFence_full pre tag body post hpre htag hbody
  have hsel : selectParse (jsTrim text) = ParseTarget.fenced body := by
    simp [selectParse, hext, hne]
  refine ⟨hsel, ?_⟩
  simp [parseStage, hsel]

/-- Witness for C3 (amended): the spec's own example shape, with prose on
both sides of a tagged fence whose interior is `abc`. -/
theorem fenced_nonempty_interior_parsed_witness :
    selectParse (jsTrim ("Here you go:\n```json\nabc\n```\nEnjoy".toList)) =
      ParseTarget.fenced ("abc".toList) ∧
    parseStage (fun _ => some (Json.arr [])) "m"
      (jsTrim ("Here you go:\n```json\nabc\n```\nEnjoy".toList)) =
      Except.ok (Json.arr []) := by
  have h := fenced_nonempty_interior_parsed (fun _ => some (Json.arr [])) "m"
    ("Here you go:\n```json\nabc\n```\nEnjoy".toList)
    ("Here you go:\n".toList) ['j', 's', 'o', 'n'] ("abc".toList)
    ("\nEnjoy".toList) (by decide) (by decide) (Or.inl rfl) (by decide)
    (by decide)
  exact ⟨h.1, h.2⟩

/-- C4: on an input with no fenced block, the normalizer parses the entire
trimmed string; if that parse fails, the inner catch raises the
malformed-response error and neither operation returns any (partial or
default) value: `getGlobalHotTopics` surfaces the malformed message itself,
`findEvents`' outer catch — which rethrows only `SyntaxError`s — replaces the
thrown `Error` with its generic failure. -/
theorem bare_parse_failure_is_malformed
    (p : List Char → Option Json) (m : String) (cc : String)
    (chunks : List Json) (synJ : Bool) (synM : String) (text : List Char)
    (hnf : extractFence (jsTrim text) = none)
    (hp : p (jsTrim text) = none) :
    selectParse (jsTrim text) = ParseTarget.bare (jsTrim text) ∧
    parseStage p m (jsTrim text) = .error (.appError m) ∧
    getGlobalHotTopics p synJ synM text = .error htParseMsg ∧
    findEvents p cc text chunks = .error feGenericMsg := by
  have hsel : selectParse (jsTrim text) = ParseTarget.bare (jsTrim text) := by
    simp [selectParse, hnf]
  have hps : ∀ mm, parseStage p mm (jsTrim text) = .error (.appError mm) := by
    intro mm
    simp [parseStage, hsel, hp]
  refine ⟨hsel, hps m, ?_, ?_⟩
  · simp [getGlobalHotTopics, hps htParseMsg, htParseMsg_hasJSON]
  · simp [findEvents, hps feParseMsg]

/-- Witness for C4 on a fence-free, unparseable input. -/
theorem bare_parse_failure_is_malformed_witness :
    getGlobalHotTopics (fun _ => none) false "m" ("hello there".toList) =
      .error htParseMsg ∧
    findEvents (fun _ => none) "US" ("hello there".toList) [] =
      .error feGenericMsg := by
  have h := bare_parse_failure_is_malformed (fun _ => none) "m" "US" [] false "m"
    ("hello there".toList) (by decide) rfl
  exact ⟨h.2.2.1, h.2.2.2⟩
